import Mathlib

/-!
Verification of the in-memory lending-system core (src/src/models/domain):
a shallow embedding of the `System` aggregate and the `Member` / `Item` /
`Contract` entities, with the stateful Rust methods rendered as explicit
state-passing functions.  Credits (`f64` in the source) are modelled as `Rat`;
the chrono timestamps, which no operation reads, are modelled as `Nat`.
A Rust method that can hit an `unwrap` on `None` (a fatal abort) is modelled
as returning `Option`, with `none` standing for the abort.
-/

/-- Opaque unique identifier (models/uuid.rs): equality-comparable, used as the
hash-map key for members and items. -/
structure Uuid where
  val : Nat
deriving DecidableEq

/-- Item category (item.rs). -/
inductive Category
  | Tool
  | Vehicle
  | Game
  | Toy
  | Sport
  | Other
deriving DecidableEq

/-- Member (member.rs).  The `items` vector is omitted: with the `owner` field
of `Item` (used by system.rs) the two types would be mutually recursive, and no
`System` operation reads it. -/
structure Member where
  name : String
  email : String
  phone_nr : String
  credits : Rat
  day_of_creation : Nat
  uuid : Uuid
deriving DecidableEq

/-- Modelled from the spec: contract.rs is not under src (only its callers
are).  Spec sections 3 and 4.3: a Contract binds an owner and a lendee over a
window `[start_day, end_day)` with a total price; system.rs passes full
`Member` values for the owner and the lendee. -/
structure Contract where
  uuid : Uuid
  owner : Member
  lendee : Member
  start_day : Nat
  end_day : Nat
  credits : Rat
deriving DecidableEq

/-- Item (item.rs).  The `owner` field is modelled from the spec: the item.rs
under src predates the owner field that system.rs reads via `get_owner`. -/
structure Item where
  uuid : Uuid
  category : Category
  name : String
  description : String
  owner : Member
  active_contract : Option Contract
  history : List Contract
  day_of_creation : Nat
  cost_per_day : Rat
deriving DecidableEq

/-- Error of the credit mutations (member.rs). -/
inductive NegativeCreditInput
  | mk
deriving DecidableEq

/-- member.rs `add_credits`: rejects a negative amount, otherwise adds it. -/
def add_credits (m : Member) (credits : Rat) : Except NegativeCreditInput Member :=
  if credits < 0 then Except.error NegativeCreditInput.mk
  else Except.ok { m with credits := m.credits + credits }

/-- member.rs `deduce_credits`: rejects a negative amount, otherwise subtracts
it (the balance may go negative). -/
def deduce_credits (m : Member) (credits : Rat) : Except NegativeCreditInput Member :=
  if credits < 0 then Except.error NegativeCreditInput.mk
  else Except.ok { m with credits := m.credits - credits }

/-- member.rs `PartialEq::eq` for Member: the disjunction of the email, phone
and uuid matches. -/
def memberEq (a b : Member) : Bool :=
  decide (a.email = b.email) || decide (a.phone_nr = b.phone_nr) || decide (a.uuid = b.uuid)

/-- member.rs `PartialEq::ne` for Member (written out by hand in the source):
unequal email AND unequal phone AND equal uuid. -/
def memberNe (a b : Member) : Bool :=
  decide (a.email ≠ b.email) && decide (a.phone_nr ≠ b.phone_nr) && decide (a.uuid = b.uuid)

/-- Modelled from the spec: the `get_active_contract` method of Item used by
system.rs is not in the item.rs under src.  Spec section 4.2: it returns the
contract of `history` whose `[start_day, end_day)` window contains the current
day (the first match when scanning). -/
def contract_is_active_on (c : Contract) (d : Nat) : Bool :=
  decide (c.start_day ≤ d) && decide (d < c.end_day)

/-- Modelled from the spec: scan `history` for the contract active on the
given day (spec section 4.2). -/
def get_active_contract (i : Item) (current_day : Nat) : Option Contract :=
  i.history.find? (fun c => contract_is_active_on c current_day)

/-- System-level errors (errors.rs, as listed by spec section 7). -/
inductive SysError
  | AlreadyExists
  | DoesntExist
  | CannotUpdate
  | CannotDelete
deriving DecidableEq

/-- `SysResult` of types.rs. -/
abbrev SysResult (α : Type) := Except SysError α

/-- The System aggregate (system.rs).  The two `HashMap`s are modelled as
association lists; iteration and `get_items` follow list order. -/
structure System where
  members : List (Uuid × Member)
  items : List (Uuid × Item)
  day : Nat
deriving DecidableEq

/-- `HashMap::get`: the value under the first matching key. -/
def alGet {α : Type} : List (Uuid × α) → Uuid → Option α
  | [], _ => none
  | (k, v) :: rest, key => if k = key then some v else alGet rest key

/-- `HashMap::insert`: replace the binding if the key is present (returning
the old value), otherwise add a new binding. -/
def alInsert {α : Type} : List (Uuid × α) → Uuid → α → List (Uuid × α) × Option α
  | [], key, v => ([(key, v)], none)
  | (k, w) :: rest, key, v =>
    if k = key then ((key, v) :: rest, some w)
    else
      let r := alInsert rest key v
      ((k, w) :: r.1, r.2)

/-- `HashMap::remove`: drop the binding if the key is present, returning the
removed value. -/
def alRemove {α : Type} : List (Uuid × α) → Uuid → List (Uuid × α) × Option α
  | [], _ => ([], none)
  | (k, w) :: rest, key =>
    if k = key then (rest, some w)
    else
      let r := alRemove rest key
      ((k, w) :: r.1, r.2)

/-- `*map.get_mut(key).unwrap() = v`: overwrite the value under the key, when
present (the key itself is untouched). -/
def alSet {α : Type} : List (Uuid × α) → Uuid → α → List (Uuid × α)
  | [], _, _ => []
  | (k, w) :: rest, key, v =>
    if k = key then (k, v) :: rest
    else (k, w) :: alSet rest key v

/-- system.rs `exists_member`: some stored member compares equal to the
argument under the disjunctive `PartialEq`. -/
def exists_member (s : System) (member : Member) : Bool :=
  s.members.any (fun entry => memberEq entry.2 member)

/-- system.rs `get_member`: lookup by the argument uuid only. -/
def get_member (s : System) (member : Member) : SysResult Member :=
  match alGet s.members member.uuid with
  | some m => Except.ok m
  | none => Except.error SysError.DoesntExist

/-- system.rs `add_member`: reject when `exists_member`, otherwise insert
under the member uuid. -/
def add_member (s : System) (member : Member) : SysResult Unit × System :=
  if exists_member s member then (Except.error SysError.AlreadyExists, s)
  else (Except.ok (), { s with members := (alInsert s.members member.uuid member).1 })

/-- system.rs `remove_member`: reject when not `exists_member`, otherwise
remove the binding of the argument uuid (if any) and report Ok. -/
def remove_member (s : System) (member : Member) : SysResult Unit × System :=
  if !exists_member s member then (Except.error SysError.DoesntExist, s)
  else (Except.ok (), { s with members := (alRemove s.members member.uuid).1 })

/-- system.rs `update_member`: reject when not `exists_member old_info`,
otherwise `*get_mut(old_info.uuid).unwrap() = new_info` — `none` models the
`unwrap` abort when the uuid of `old_info` is not a key although the
disjunctive existence check passed. -/
def update_member (s : System) (old_info new_info : Member) :
    Option (SysResult Unit × System) :=
  if !exists_member s old_info then some (Except.error SysError.DoesntExist, s)
  else
    match alGet s.members old_info.uuid with
    | none => none
    | some _ =>
      some (Except.ok (), { s with members := alSet s.members old_info.uuid new_info })

/-- system.rs `add_item`: insert unconditionally, then on a duplicate report
AlreadyExists (the map was still overwritten); otherwise fetch the owner,
credit it 100, and store it back through `update_member`. -/
def add_item (s : System) (item : Item) : Option (SysResult Unit × System) :=
  let ins := alInsert s.items item.uuid item
  let s1 : System := { s with items := ins.1 }
  match ins.2 with
  | some _ => some (Except.error SysError.AlreadyExists, s1)
  | none =>
    match get_member s1 item.owner with
    | Except.ok member =>
      match add_credits member 100 with
      | Except.ok member2 =>
        match update_member s1 item.owner member2 with
        | none => none
        | some (Except.ok _, s2) => some (Except.ok (), s2)
        | some (Except.error err, s2) => some (Except.error err, s2)
      | Except.error _ => some (Except.error SysError.CannotUpdate, s1)
    | Except.error err => some (Except.error err, s1)

/-- system.rs `remove_item`: remove by uuid; CannotDelete when absent. -/
def remove_item (s : System) (item : Item) : SysResult Unit × System :=
  let r := alRemove s.items item.uuid
  match r.2 with
  | some _ => (Except.ok (), { s with items := r.1 })
  | none => (Except.error SysError.CannotDelete, { s with items := r.1 })

/-- system.rs `update_item`: overwrite the stored value by uuid when present;
CannotUpdate when absent. -/
def update_item (s : System) (info : Item) : SysResult Unit × System :=
  match alGet s.items info.uuid with
  | some _ => (Except.ok (), { s with items := alSet s.items info.uuid info })
  | none => (Except.error SysError.CannotUpdate, s)

/-- The `res1` block of the `incr_time` loop body (system.rs lines 228 to
238): credit the contract owner by the item cost per day and store it back; a
missing owner is a soft no-op (Ok), a failing credit add is CannotUpdate, a
failing store is passed through. -/
def settle_owner (s : System) (item : Item) (con : Contract) :
    Option (SysResult Unit × System) :=
  match get_member s con.owner with
  | Except.ok o =>
    match add_credits o item.cost_per_day with
    | Except.ok o2 =>
      match update_member s con.owner o2 with
      | none => none
      | some (Except.ok _, t) => some (Except.ok (), t)
      | some (Except.error err, t) => some (Except.error err, t)
    | Except.error _ => some (Except.error SysError.CannotUpdate, s)
  | Except.error _ => some (Except.ok (), s)

/-- The `res2` block of the `incr_time` loop body (system.rs lines 239 to
249): debit the contract lendee by the item cost per day and store it back; a
missing lendee or failing debit is CannotUpdate, a failing store is passed
through. -/
def settle_lendee (s : System) (item : Item) (con : Contract) :
    Option (SysResult Unit × System) :=
  match get_member s con.lendee with
  | Except.ok l =>
    match deduce_credits l item.cost_per_day with
    | Except.ok l2 =>
      match update_member s con.lendee l2 with
      | none => none
      | some (Except.ok _, t) => some (Except.ok (), t)
      | some (Except.error err, t) => some (Except.error err, t)
    | Except.error _ => some (Except.error SysError.CannotUpdate, s)
  | Except.error _ => some (Except.error SysError.CannotUpdate, s)

/-- One item of the body of the `incr_time` loop (system.rs lines 226 to 256):
find the contract active on the current day; run the owner then the lendee
block; a pair of results that is not (Ok, Ok) yields CannotUpdate. -/
def settle_item (s : System) (item : Item) : Option (SysResult Unit × System) :=
  match get_active_contract item s.day with
  | some con =>
    match settle_owner s item con with
    | none => none
    | some (res1, s1) =>
      match settle_lendee s1 item con with
      | none => none
      | some (res2, s2) =>
        some (match res1, res2 with
              | Except.ok _, Except.ok _ => Except.ok ()
              | _, _ => Except.error SysError.CannotUpdate, s2)
  | none => some (Except.ok (), s)

/-- The `for item in cp.get_items()` loop of `incr_time`: every item is
processed in order and `out` is overwritten by the result of each item. -/
def incr_loop (s : System) (out : SysResult Unit) :
    List Item → Option (SysResult Unit × System)
  | [] => some (out, s)
  | i :: rest =>
    match settle_item s i with
    | none => none
    | some (res, s2) => incr_loop s2 res rest

/-- system.rs `incr_time`: advance the day, then run the settlement loop over
a snapshot of the item list. -/
def incr_time (s : System) : Option (SysResult Unit × System) :=
  let s0 : System := { s with day := s.day + 1 }
  incr_loop s0 (Except.ok ()) (s0.items.map Prod.snd)

/-- Calling `incr_time` n times in a row (dropping the per-call results). -/
def incr_times : Nat → System → Option System
  | 0, s => some s
  | Nat.succ k, s =>
    match incr_time s with
    | none => none
    | some (_, s2) => incr_times k s2

/-- The map-key invariant of spec section 3: every key of `members` and of
`items` equals the uuid of the entity stored under it. -/
def keys_ok (s : System) : Bool :=
  s.members.all (fun p => decide (p.2.uuid = p.1)) &&
    s.items.all (fun p => decide (p.2.uuid = p.1))

/-! ### Helper lemmas about the association-list operations -/

theorem alGet_alSet_self {α : Type} (l : List (Uuid × α)) (k : Uuid) (v w : α)
    (h : alGet l k = some w) : alGet (alSet l k v) k = some v := by
  induction l with
  | nil => simp [alGet] at h
  | cons p rest ih =>
    obtain ⟨pk, pv⟩ := p
    by_cases hk : pk = k
    · simp [alGet, alSet, hk]
    · simp [alGet, alSet, hk] at h ⊢
      exact ih h

theorem alGet_alSet_ne {α : Type} (l : List (Uuid × α)) (k k2 : Uuid) (v : α)
    (h : k2 ≠ k) : alGet (alSet l k v) k2 = alGet l k2 := by
  induction l with
  | nil => simp [alSet]
  | cons p rest ih =>
    obtain ⟨pk, pv⟩ := p
    by_cases hk : pk = k
    · subst hk
      simp [alGet, alSet, Ne.symm h]
    · simp [alGet, alSet, hk]
      by_cases hk2 : pk = k2
      · simp [hk2]
      · simp [hk2, ih]

theorem alInsert_mem {α : Type} (l : List (Uuid × α)) (k : Uuid) (v : α) :
    (k, v) ∈ (alInsert l k v).1 := by
  induction l with
  | nil => simp [alInsert]
  | cons p rest ih =>
    obtain ⟨pk, pv⟩ := p
    by_cases hk : pk = k
    · simp [alInsert, hk]
    · simp [alInsert, hk]
      exact Or.inr ih

theorem alRemove_get_none {α : Type} (l : List (Uuid × α)) (k : Uuid)
    (h : alGet l k = none) : (alRemove l k).1 = l := by
  induction l with
  | nil => simp [alRemove]
  | cons p rest ih =>
    obtain ⟨pk, pv⟩ := p
    by_cases hk : pk = k
    · simp [alGet, hk] at h
    · simp [alGet, hk] at h
      simp [alRemove, hk, ih h]

theorem alGet_all {α : Type} (P : Uuid × α → Bool) (l : List (Uuid × α)) (k : Uuid) (v : α)
    (hall : l.all P = true) (hget : alGet l k = some v) : P (k, v) = true := by
  induction l with
  | nil => simp [alGet] at hget
  | cons p rest ih =>
    obtain ⟨pk, pv⟩ := p
    rw [List.all_cons, Bool.and_eq_true] at hall
    by_cases hk : pk = k
    · simp [alGet, hk] at hget
      subst hk
      rw [← hget]
      exact hall.1
    · simp [alGet, hk] at hget
      exact ih hall.2 hget

theorem alInsert_all {α : Type} (P : Uuid × α → Bool) (l : List (Uuid × α)) (k : Uuid) (v : α)
    (hall : l.all P = true) (hv : P (k, v) = true) : ((alInsert l k v).1).all P = true := by
  induction l with
  | nil => simp [alInsert, hv]
  | cons p rest ih =>
    obtain ⟨pk, pv⟩ := p
    rw [List.all_cons, Bool.and_eq_true] at hall
    by_cases hk : pk = k
    · simp only [alInsert, hk, if_pos]
      rw [List.all_cons, Bool.and_eq_true]
      exact ⟨hv, hall.2⟩
    · simp only [alInsert, hk, if_neg, ite_false]
      rw [List.all_cons, Bool.and_eq_true]
      exact ⟨hall.1, ih hall.2⟩

theorem alRemove_all {α : Type} (P : Uuid × α → Bool) (l : List (Uuid × α)) (k : Uuid)
    (hall : l.all P = true) : ((alRemove l k).1).all P = true := by
  induction l with
  | nil => simp [alRemove]
  | cons p rest ih =>
    obtain ⟨pk, pv⟩ := p
    rw [List.all_cons, Bool.and_eq_true] at hall
    by_cases hk : pk = k
    · simp only [alRemove, hk, if_pos]
      exact hall.2
    · simp only [alRemove, hk, if_neg, ite_false]
      rw [List.all_cons, Bool.and_eq_true]
      exact ⟨hall.1, ih hall.2⟩

theorem alSet_all {α : Type} (P : Uuid × α → Bool) (l : List (Uuid × α)) (k : Uuid) (v : α)
    (hall : l.all P = true) (hv : P (k, v) = true) : (alSet l k v).all P = true := by
  induction l with
  | nil => simp [alSet]
  | cons p rest ih =>
    obtain ⟨pk, pv⟩ := p
    rw [List.all_cons, Bool.and_eq_true] at hall
    by_cases hk : pk = k
    · subst hk
      simp only [alSet, if_pos]
      rw [List.all_cons, Bool.and_eq_true]
      exact ⟨hv, hall.2⟩
    · simp only [alSet, hk, if_neg, ite_false]
      rw [List.all_cons, Bool.and_eq_true]
      exact ⟨hall.1, ih hall.2⟩

theorem memberEq_of_uuid (a b : Member) (h : a.uuid = b.uuid) : memberEq a b = true := by
  simp [memberEq, h]

theorem exists_member_of_mem (s : System) (m : Member) (k : Uuid) (v : Member)
    (hmem : (k, v) ∈ s.members) (heq : memberEq v m = true) :
    exists_member s m = true := by
  rw [exists_member, List.any_eq_true]
  exact ⟨(k, v), hmem, heq⟩

/-! ### Concrete values for the closed theorems -/

/-- A member with fresh values in every identifying field. -/
def m8a : Member :=
  { name := "a", email := "ea", phone_nr := "pa", credits := 0, day_of_creation := 0, uuid := ⟨1⟩ }

/-- A second member differing from `m8a` in email, phone and uuid. -/
def m8b : Member :=
  { name := "b", email := "eb", phone_nr := "pb", credits := 0, day_of_creation := 0, uuid := ⟨2⟩ }

/-- Claim C8: the Member inequality test is not the negation of the equality
test: two members that differ in email, phone and uuid satisfy neither
`eq` (no field matches) nor `ne` (the uuids are unequal, but `ne` demands
equal uuids). -/
theorem member_eq_ne_not_complementary :
    m8a.email ≠ m8b.email ∧ m8a.phone_nr ≠ m8b.phone_nr ∧ m8a.uuid ≠ m8b.uuid ∧
      memberEq m8a m8b = false ∧ memberNe m8a m8b = false := by
  decide

/-- A stored member: uuid 1, email "ea", phone "pa". -/
def m10stored : Member :=
  { name := "a", email := "ea", phone_nr := "pa", credits := 0, day_of_creation := 0, uuid := ⟨1⟩ }

/-- A probe member sharing the stored email but with a uuid that is not a key. -/
def m10probe : Member :=
  { name := "x", email := "ea", phone_nr := "px", credits := 0, day_of_creation := 0, uuid := ⟨9⟩ }

/-- A system holding only `m10stored` under its own uuid. -/
def sys10 : System := { members := [(⟨1⟩, m10stored)], items := [], day := 0 }

/-- Claim C10: existence and lookup disagree at the public interface:
`exists_member` accepts the probe through the disjunctive email match while
`get_member`, which looks up only the probe uuid, reports DoesntExist. -/
theorem exists_member_get_member_disagree :
    exists_member sys10 m10probe = true ∧
      get_member sys10 m10probe = Except.error SysError.DoesntExist := by
  constructor
  · decide
  · rfl

/-- A stored member: uuid 1, email "ea", phone "pa". -/
def m3stored : Member :=
  { name := "a", email := "ea", phone_nr := "pa", credits := 0, day_of_creation := 0, uuid := ⟨1⟩ }

/-- An update argument matching the stored member only by email; its own uuid
is not a key of the members map. -/
def m3old : Member :=
  { name := "x", email := "ea", phone_nr := "px", credits := 0, day_of_creation := 0, uuid := ⟨9⟩ }

/-- The replacement value passed to the update. -/
def m3new : Member :=
  { name := "y", email := "ey", phone_nr := "py", credits := 0, day_of_creation := 0, uuid := ⟨9⟩ }

/-- A system holding only `m3stored` under its own uuid. -/
def sys3 : System := { members := [(⟨1⟩, m3stored)], items := [], day := 0 }

/-- Claim C3 (code bug): `update_member` does not return a result when the
old value matches a stored member only by email while its own uuid is not a
key: the disjunctive existence check passes, and the subsequent
`get_mut(uuid).unwrap()` hits `None` and aborts the process (modelled as
`none`), contradicting the stated never-abort contract. -/
theorem update_member_unwrap_abort :
    exists_member sys3 m3old = true ∧
      alGet sys3.members m3old.uuid = none ∧
      update_member sys3 m3old m3new = none := by
  refine ⟨by decide, rfl, rfl⟩

/-- Claim C9: `remove_member` can report success without removing anyone: if
some stored entry shares the email or the phone of the argument, the
disjunctive existence check passes, but the removal itself keys on the
argument uuid, which is absent, so the map is returned unchanged with Ok. -/
theorem remove_member_silent_no_removal (s : System) (m : Member) (k : Uuid) (v : Member)
    (hmem : (k, v) ∈ s.members)
    (hmatch : v.email = m.email ∨ v.phone_nr = m.phone_nr)
    (habs : alGet s.members m.uuid = none) :
    remove_member s m = (Except.ok (), s) := by
  have heq : memberEq v m = true := by
    rcases hmatch with h | h <;> simp [memberEq, h]
  have hex : exists_member s m = true := exists_member_of_mem s m k v hmem heq
  rw [remove_member, hex]
  simp only [Bool.not_true, Bool.false_eq_true, if_false]
  rw [alRemove_get_none s.members m.uuid habs]

/-- Witness for C9 at a concrete input: a one-member store, a probe sharing
only the email, with a fresh uuid. -/
theorem remove_member_silent_no_removal_witness :
    ((⟨1⟩ : Uuid), m3stored) ∈ sys3.members ∧
      (m3stored.email = m3old.email ∨ m3stored.phone_nr = m3old.phone_nr) ∧
      alGet sys3.members m3old.uuid = none ∧
      remove_member sys3 m3old = (Except.ok (), sys3) :=
  ⟨by simp [sys3], Or.inl (by decide), rfl,
    remove_member_silent_no_removal sys3 m3old ⟨1⟩ m3stored (by simp [sys3])
      (Or.inl (by decide)) rfl⟩

/-- Claim C6: duplicate detection on insert is the disjunction of the field
matches: after a successful `add_member m1`, any `add_member m2` whose email
or phone collides with `m1` (ids distinct) fails with AlreadyExists and
leaves the state unchanged. -/
theorem add_member_duplicate_rejected (s s2 : System) (m1 m2 : Member)
    (hid : m1.uuid ≠ m2.uuid)
    (hdup : m1.email = m2.email ∨ m1.phone_nr = m2.phone_nr)
    (hok : add_member s m1 = (Except.ok (), s2)) :
    add_member s2 m2 = (Except.error SysError.AlreadyExists, s2) := by
  have heq : memberEq m1 m2 = true := by
    rcases hdup with h | h <;> simp [memberEq, h]
  rw [add_member] at hok
  by_cases he : exists_member s m1 = true
  · rw [if_pos he] at hok
    simp at hok
  · rw [if_neg he] at hok
    have hs2 : ({ s with members := (alInsert s.members m1.uuid m1).1 } : System) = s2 :=
      congrArg Prod.snd hok
    have hmem : (m1.uuid, m1) ∈ s2.members := by
      rw [← hs2]
      exact alInsert_mem s.members m1.uuid m1
    have hex : exists_member s2 m2 = true := exists_member_of_mem s2 m2 m1.uuid m1 hmem heq
    rw [add_member, if_pos hex]

/-- First member of the C6 witness scenario. -/
def m6a : Member :=
  { name := "a", email := "e", phone_nr := "p1", credits := 0, day_of_creation := 0, uuid := ⟨1⟩ }

/-- Second member of the C6 witness scenario: same email, fresh phone and uuid. -/
def m6b : Member :=
  { name := "b", email := "e", phone_nr := "p2", credits := 0, day_of_creation := 0, uuid := ⟨2⟩ }

/-- The state after adding `m6a` to the fresh system. -/
def sys6 : System := { members := [(⟨1⟩, m6a)], items := [], day := 0 }

/-- Witness for C6 at a concrete input. -/
theorem add_member_duplicate_rejected_witness :
    m6a.uuid ≠ m6b.uuid ∧ m6a.email = m6b.email ∧
      add_member { members := [], items := [], day := 0 } m6a = (Except.ok (), sys6) ∧
      add_member sys6 m6b = (Except.error SysError.AlreadyExists, sys6) :=
  ⟨by decide, rfl, rfl,
    add_member_duplicate_rejected { members := [], items := [], day := 0 } sys6 m6a m6b
      (by decide) (Or.inl rfl) rfl⟩

/-- Claim C7: every successful `add_item i` bumps the credits of the member
stored under the owner uuid by exactly 100, and the lookup of every other key
in the members map is unchanged. -/
theorem add_item_credits_owner (s : System) (i : Item) (s2 : System)
    (hok : add_item s i = some (Except.ok (), s2)) :
    (∃ m, alGet s.members i.owner.uuid = some m ∧
        alGet s2.members i.owner.uuid = some { m with credits := m.credits + 100 }) ∧
      ∀ k, k ≠ i.owner.uuid → alGet s2.members k = alGet s.members k := by
  rw [add_item] at hok
  split at hok
  · simp at hok
  · rename_i hins
    split at hok
    · rename_i member hget
      rw [add_credits, if_neg (by norm_num : ¬((100 : Rat) < 0))] at hok
      simp only at hok
      split at hok
      · exact absurd hok (by simp)
      · rename_i t hupd
        simp only [Option.some.injEq, Prod.mk.injEq, true_and] at hok
        subst hok
        rw [update_member] at hupd
        split at hupd
        · simp at hupd
        · split at hupd
          · simp at hupd
          · simp only [Option.some.injEq, Prod.mk.injEq, true_and] at hupd
            rw [get_member] at hget
            split at hget
            · rename_i m halGet
              simp only [Except.ok.injEq] at hget
              subst hget
              rw [← hupd]
              constructor
              · exact ⟨m, halGet, alGet_alSet_self s.members i.owner.uuid _ m halGet⟩
              · intro k hk
                exact alGet_alSet_ne s.members i.owner.uuid k _ hk
            · simp at hget
      · rename_i e t hupd
        simp at hok
    · simp at hok

/-- The owner of the C7 witness item. -/
def m7 : Member :=
  { name := "a", email := "e7", phone_nr := "p7", credits := 0, day_of_creation := 0, uuid := ⟨1⟩ }

/-- The item listed in the C7 witness scenario. -/
def i7 : Item :=
  { uuid := ⟨10⟩, category := Category.Game, name := "g", description := "d", owner := m7,
    active_contract := none, history := [], day_of_creation := 0, cost_per_day := 20 }

/-- The system before the C7 witness insertion. -/
def sys7 : System := { members := [(⟨1⟩, m7)], items := [], day := 0 }

/-- The system after the C7 witness insertion: item stored, owner at 100. -/
def sys7b : System :=
  { members := [(⟨1⟩, { m7 with credits := 100 })], items := [(⟨10⟩, i7)], day := 0 }

/-- Witness for C7 at a concrete input. -/
theorem add_item_credits_owner_witness :
    add_item sys7 i7 = some (Except.ok (), sys7b) ∧
      ((∃ m, alGet sys7.members i7.owner.uuid = some m ∧
          alGet sys7b.members i7.owner.uuid = some { m with credits := m.credits + 100 }) ∧
        ∀ k, k ≠ i7.owner.uuid → alGet sys7b.members k = alGet sys7.members k) := by
  have hok : add_item sys7 i7 = some (Except.ok (), sys7b) := by
    norm_num [add_item, alInsert, get_member, alGet, add_credits, update_member,
      exists_member, memberEq, alSet, sys7, sys7b, i7, m7]
  exact ⟨hok, add_item_credits_owner sys7 i7 sys7b hok⟩

theorem alRemove_snd_eq_alGet {α : Type} (l : List (Uuid × α)) (k : Uuid) :
    (alRemove l k).2 = alGet l k := by
  induction l with
  | nil => simp [alRemove, alGet]
  | cons p rest ih =>
    obtain ⟨pk, pv⟩ := p
    by_cases hk : pk = k
    · simp [alRemove, alGet, hk]
    · simp [alRemove, alGet, hk, ih]

/-- The member that owns the C2 counterexample item; never stored in the map. -/
def m2owner : Member :=
  { name := "o", email := "eo", phone_nr := "po", credits := 0, day_of_creation := 0, uuid := ⟨1⟩ }

/-- The C2 counterexample item: a fresh uuid, owned by the absent member. -/
def i2orphan : Item :=
  { uuid := ⟨5⟩, category := Category.Tool, name := "t", description := "d", owner := m2owner,
    active_contract := none, history := [], day_of_creation := 0, cost_per_day := 1 }

/-- The empty system of the C2 counterexample. -/
def sys2 : System := { members := [], items := [], day := 0 }

/-- Claim C2 is false as stated: `add_item` whose owner lookup fails returns
DoesntExist, yet the item was already inserted into the items map, so a
failing call does not leave the maps unchanged. -/
theorem add_item_error_mutates_state :
    add_item sys2 i2orphan =
      some (Except.error SysError.DoesntExist,
        { members := [], items := [(⟨5⟩, i2orphan)], day := 0 }) ∧
      ({ members := [], items := [(⟨5⟩, i2orphan)], day := 0 } : System).items ≠ sys2.items := by
  exact ⟨rfl, by decide⟩

/-- Claim C2 (amended): the five mutators other than `add_item` and
`incr_time` are atomic: whenever `add_member`, `remove_member`,
`update_member`, `remove_item` or `update_item` returns an error, the state
it returns is exactly the input state. -/
theorem mutators_atomic_on_error :
    (∀ (s : System) (m : Member) (e : SysError) (s2 : System),
        add_member s m = (Except.error e, s2) → s2 = s) ∧
      (∀ (s : System) (m : Member) (e : SysError) (s2 : System),
        remove_member s m = (Except.error e, s2) → s2 = s) ∧
      (∀ (s : System) (o n : Member) (e : SysError) (s2 : System),
        update_member s o n = some (Except.error e, s2) → s2 = s) ∧
      (∀ (s : System) (i : Item) (e : SysError) (s2 : System),
        remove_item s i = (Except.error e, s2) → s2 = s) ∧
      (∀ (s : System) (i : Item) (e : SysError) (s2 : System),
        update_item s i = (Except.error e, s2) → s2 = s) := by
  refine ⟨?_, ?_, ?_, ?_, ?_⟩
  · intro s m e s2 h
    rw [add_member] at h
    split at h
    · exact (congrArg Prod.snd h).symm
    · simp at h
  · intro s m e s2 h
    rw [remove_member] at h
    split at h
    · exact (congrArg Prod.snd h).symm
    · simp at h
  · intro s o n e s2 h
    rw [update_member] at h
    split at h
    · simp only [Option.some.injEq, Prod.mk.injEq] at h
      exact h.2.symm
    · split at h
      · simp at h
      · simp at h
  · intro s i e s2 h
    rw [remove_item] at h
    split at h
    · simp at h
    · rename_i hnone
      rw [alRemove_snd_eq_alGet] at hnone
      simp only [Prod.mk.injEq] at h
      rw [← h.2, alRemove_get_none s.items i.uuid hnone]
  · intro s i e s2 h
    rw [update_item] at h
    split at h
    · simp at h
    · exact (congrArg Prod.snd h).symm

/-- A stored member for the C2 witness. -/
def mW2 : Member :=
  { name := "a", email := "ew", phone_nr := "pw", credits := 0, day_of_creation := 0, uuid := ⟨1⟩ }

/-- A member absent from the C2 witness system. -/
def mW2x : Member :=
  { name := "x", email := "ex", phone_nr := "px", credits := 0, day_of_creation := 0, uuid := ⟨9⟩ }

/-- An item absent from the C2 witness system. -/
def iW2x : Item :=
  { uuid := ⟨8⟩, category := Category.Toy, name := "y", description := "d", owner := mW2,
    active_contract := none, history := [], day_of_creation := 0, cost_per_day := 1 }

/-- The C2 witness system: one member, no items. -/
def sysW2 : System := { members := [(⟨1⟩, mW2)], items := [], day := 0 }

/-- Witness for the amended C2 at concrete inputs: each of the five mutators
fails here and returns the state unchanged. -/
theorem mutators_atomic_on_error_witness :
    add_member sysW2 mW2 = (Except.error SysError.AlreadyExists, sysW2) ∧
      remove_member sysW2 mW2x = (Except.error SysError.DoesntExist, sysW2) ∧
      update_member sysW2 mW2x mW2x = some (Except.error SysError.DoesntExist, sysW2) ∧
      remove_item sysW2 iW2x = (Except.error SysError.CannotDelete, sysW2) ∧
      update_item sysW2 iW2x = (Except.error SysError.CannotUpdate, sysW2) := by
  have h1 := mutators_atomic_on_error.1 sysW2 mW2 SysError.AlreadyExists
    (add_member sysW2 mW2).2 rfl
  have h2 := mutators_atomic_on_error.2.1 sysW2 mW2x SysError.DoesntExist
    (remove_member sysW2 mW2x).2 rfl
  have h3 := mutators_atomic_on_error.2.2.1 sysW2 mW2x mW2x SysError.DoesntExist sysW2 rfl
  have h4 := mutators_atomic_on_error.2.2.2.1 sysW2 iW2x SysError.CannotDelete
    (remove_item sysW2 iW2x).2 rfl
  have h5 := mutators_atomic_on_error.2.2.2.2 sysW2 iW2x SysError.CannotUpdate
    (update_item sysW2 iW2x).2 rfl
  refine ⟨?_, ?_, rfl, ?_, ?_⟩
  · rw [Prod.ext_iff]
    exact ⟨rfl, h1⟩
  · rw [Prod.ext_iff]
    exact ⟨rfl, h2⟩
  · rw [Prod.ext_iff]
    exact ⟨rfl, h4⟩
  · rw [Prod.ext_iff]
    exact ⟨rfl, h5⟩

/-- A member stored under its own uuid. -/
def m5a : Member :=
  { name := "a", email := "e5", phone_nr := "p5", credits := 0, day_of_creation := 0, uuid := ⟨1⟩ }

/-- A replacement member with a different uuid. -/
def m5b : Member :=
  { name := "b", email := "f5", phone_nr := "q5", credits := 0, day_of_creation := 0, uuid := ⟨2⟩ }

/-- A well-keyed one-member system. -/
def sys5 : System := { members := [(⟨1⟩, m5a)], items := [], day := 0 }

/-- Claim C5 is false as stated: a successful `update_member` whose new value
carries a different uuid stores that value under the old key, breaking the
key-equals-id invariant. -/
theorem update_member_breaks_key_invariant :
    keys_ok sys5 = true ∧
      update_member sys5 m5a m5b =
        some (Except.ok (), { members := [(⟨1⟩, m5b)], items := [], day := 0 }) ∧
      keys_ok { members := [(⟨1⟩, m5b)], items := [], day := 0 } = false := by
  refine ⟨by decide, rfl, by decide⟩

theorem update_member_keys (s : System) (o n : Member) (r : SysResult Unit) (s2 : System)
    (hk : keys_ok s = true) (hu : n.uuid = o.uuid)
    (h : update_member s o n = some (r, s2)) : keys_ok s2 = true := by
  rw [update_member] at h
  split at h
  · simp only [Option.some.injEq, Prod.mk.injEq] at h
    rw [← h.2]
    exact hk
  · split at h
    · simp at h
    · simp only [Option.some.injEq, Prod.mk.injEq] at h
      rw [← h.2]
      rw [keys_ok, Bool.and_eq_true] at hk ⊢
      exact ⟨alSet_all _ s.members o.uuid n hk.1 (by simp [hu]), hk.2⟩

theorem settle_owner_keys (s : System) (i : Item) (con : Contract)
    (r : SysResult Unit) (s2 : System)
    (hk : keys_ok s = true) (h : settle_owner s i con = some (r, s2)) :
    keys_ok s2 = true := by
  rw [settle_owner] at h
  split at h
  · rename_i o hgeto
    split at h
    · rename_i o2 hado
      split at h
      · simp at h
      · rename_i t hupdo
        simp only [Option.some.injEq, Prod.mk.injEq] at h
        rw [← h.2]
        rw [get_member] at hgeto
        split at hgeto
        · rename_i om halGet
          simp only [Except.ok.injEq] at hgeto
          subst hgeto
          rw [add_credits] at hado
          split at hado
          · simp at hado
          · simp only [Except.ok.injEq] at hado
            have hkm := (Bool.and_eq_true _ _).mp hk
            have hou : om.uuid = con.owner.uuid := by
              have := alGet_all (fun p => decide (p.2.uuid = p.1)) s.members
                con.owner.uuid om hkm.1 halGet
              simpa using this
            have ho2 : o2.uuid = con.owner.uuid := by
              rw [← hado]
              exact hou
            exact update_member_keys s con.owner o2 _ t hk ho2 hupdo
        · simp at hgeto
      · rename_i e t hupdo
        simp only [Option.some.injEq, Prod.mk.injEq] at h
        rw [← h.2]
        rw [get_member] at hgeto
        split at hgeto
        · rename_i om halGet
          simp only [Except.ok.injEq] at hgeto
          subst hgeto
          rw [add_credits] at hado
          split at hado
          · simp at hado
          · simp only [Except.ok.injEq] at hado
            have hkm := (Bool.and_eq_true _ _).mp hk
            have hou : om.uuid = con.owner.uuid := by
              have := alGet_all (fun p => decide (p.2.uuid = p.1)) s.members
                con.owner.uuid om hkm.1 halGet
              simpa using this
            have ho2 : o2.uuid = con.owner.uuid := by
              rw [← hado]
              exact hou
            exact update_member_keys s con.owner o2 _ t hk ho2 hupdo
        · simp at hgeto
    · simp only [Option.some.injEq, Prod.mk.injEq] at h
      rw [← h.2]
      exact hk
  · simp only [Option.some.injEq, Prod.mk.injEq] at h
    rw [← h.2]
    exact hk

theorem settle_lendee_keys (s : System) (i : Item) (con : Contract)
    (r : SysResult Unit) (s2 : System)
    (hk : keys_ok s = true) (h : settle_lendee s i con = some (r, s2)) :
    keys_ok s2 = true := by
  rw [settle_lendee] at h
  split at h
  · rename_i l hgetl
    split at h
    · rename_i l2 hdel
      split at h
      · simp at h
      · rename_i t hupdl
        simp only [Option.some.injEq, Prod.mk.injEq] at h
        rw [← h.2]
        rw [get_member] at hgetl
        split at hgetl
        · rename_i lm halGet
          simp only [Except.ok.injEq] at hgetl
          subst hgetl
          rw [deduce_credits] at hdel
          split at hdel
          · simp at hdel
          · simp only [Except.ok.injEq] at hdel
            have hkm := (Bool.and_eq_true _ _).mp hk
            have hlu : lm.uuid = con.lendee.uuid := by
              have := alGet_all (fun p => decide (p.2.uuid = p.1)) s.members
                con.lendee.uuid lm hkm.1 halGet
              simpa using this
            have hl2 : l2.uuid = con.lendee.uuid := by
              rw [← hdel]
              exact hlu
            exact update_member_keys s con.lendee l2 _ t hk hl2 hupdl
        · simp at hgetl
      · rename_i e t hupdl
        simp only [Option.some.injEq, Prod.mk.injEq] at h
        rw [← h.2]
        rw [get_member] at hgetl
        split at hgetl
        · rename_i lm halGet
          simp only [Except.ok.injEq] at hgetl
          subst hgetl
          rw [deduce_credits] at hdel
          split at hdel
          · simp at hdel
          · simp only [Except.ok.injEq] at hdel
            have hkm := (Bool.and_eq_true _ _).mp hk
            have hlu : lm.uuid = con.lendee.uuid := by
              have := alGet_all (fun p => decide (p.2.uuid = p.1)) s.members
                con.lendee.uuid lm hkm.1 halGet
              simpa using this
            have hl2 : l2.uuid = con.lendee.uuid := by
              rw [← hdel]
              exact hlu
            exact update_member_keys s con.lendee l2 _ t hk hl2 hupdl
        · simp at hgetl
    · simp only [Option.some.injEq, Prod.mk.injEq] at h
      rw [← h.2]
      exact hk
  · simp only [Option.some.injEq, Prod.mk.injEq] at h
    rw [← h.2]
    exact hk

theorem settle_item_keys (s : System) (i : Item) (r : SysResult Unit) (s2 : System)
    (hk : keys_ok s = true) (h : settle_item s i = some (r, s2)) : keys_ok s2 = true := by
  rw [settle_item] at h
  split at h
  · rename_i con hcon
    split at h
    · simp at h
    · rename_i res1 s1 hstep1
      split at h
      · simp at h
      · rename_i res2 t2 hstep2
        simp only [Option.some.injEq, Prod.mk.injEq] at h
        rw [← h.2]
        exact settle_lendee_keys s1 i con res2 t2
          (settle_owner_keys s i con res1 s1 hk hstep1) hstep2
  · simp only [Option.some.injEq, Prod.mk.injEq] at h
    rw [← h.2]
    exact hk

theorem incr_loop_keys (l : List Item) (s : System) (out : SysResult Unit)
    (r : SysResult Unit) (s2 : System)
    (hk : keys_ok s = true) (h : incr_loop s out l = some (r, s2)) : keys_ok s2 = true := by
  induction l generalizing s out with
  | nil =>
    rw [incr_loop] at h
    simp only [Option.some.injEq, Prod.mk.injEq] at h
    rw [← h.2]
    exact hk
  | cons i rest ih =>
    rw [incr_loop] at h
    split at h
    · simp at h
    · rename_i res t hset
      exact ih t res (settle_item_keys s i res t hk hset) h

/-- Claim C5 (amended): the key-equals-id invariant on both maps is preserved
by every System operation, where `update_member` preserves it provided the
new value carries the same uuid as the old one (the counterexample shows the
unconditional statement fails for `update_member`). -/
theorem keys_invariant_preserved :
    (∀ (s : System) (m : Member), keys_ok s = true → keys_ok (add_member s m).2 = true) ∧
      (∀ (s : System) (m : Member), keys_ok s = true → keys_ok (remove_member s m).2 = true) ∧
      (∀ (s : System) (o n : Member) (r : SysResult Unit) (s2 : System),
        keys_ok s = true → n.uuid = o.uuid → update_member s o n = some (r, s2) →
          keys_ok s2 = true) ∧
      (∀ (s : System) (i : Item) (r : SysResult Unit) (s2 : System),
        keys_ok s = true → add_item s i = some (r, s2) → keys_ok s2 = true) ∧
      (∀ (s : System) (i : Item), keys_ok s = true → keys_ok (remove_item s i).2 = true) ∧
      (∀ (s : System) (i : Item), keys_ok s = true → keys_ok (update_item s i).2 = true) ∧
      (∀ (s : System) (r : SysResult Unit) (s2 : System),
        keys_ok s = true → incr_time s = some (r, s2) → keys_ok s2 = true) := by
  refine ⟨?_, ?_, ?_, ?_, ?_, ?_, ?_⟩
  · intro s m hk
    rw [add_member]
    split
    · exact hk
    · rw [keys_ok, Bool.and_eq_true] at hk ⊢
      exact ⟨alInsert_all _ s.members m.uuid m hk.1 (by simp), hk.2⟩
  · intro s m hk
    rw [remove_member]
    split
    · exact hk
    · rw [keys_ok, Bool.and_eq_true] at hk ⊢
      exact ⟨alRemove_all _ s.members m.uuid hk.1, hk.2⟩
  · intro s o n r s2 hk hu h
    exact update_member_keys s o n r s2 hk hu h
  · intro s i r s2 hk h
    rw [add_item] at h
    have hk1 : keys_ok ({ s with items := (alInsert s.items i.uuid i).1 } : System) = true := by
      rw [keys_ok, Bool.and_eq_true] at hk ⊢
      exact ⟨hk.1, alInsert_all _ s.items i.uuid i hk.2 (by simp)⟩
    split at h
    · simp only [Option.some.injEq, Prod.mk.injEq] at h
      rw [← h.2]
      exact hk1
    · split at h
      · rename_i member hget
        rw [add_credits, if_neg (by norm_num : ¬((100 : Rat) < 0))] at h
        simp only at h
        split at h
        · simp at h
        · rename_i t hupd
          simp only [Option.some.injEq, Prod.mk.injEq] at h
          rw [← h.2]
          rw [get_member] at hget
          split at hget
          · rename_i mm halGet
            simp only [Except.ok.injEq] at hget
            subst hget
            have hmu : mm.uuid = i.owner.uuid := by
              have := alGet_all (fun p => decide (p.2.uuid = p.1))
                ({ s with items := (alInsert s.items i.uuid i).1 } : System).members
                i.owner.uuid mm ((Bool.and_eq_true _ _).mp hk1).1 halGet
              simpa using this
            exact update_member_keys _ i.owner { mm with credits := mm.credits + 100 } _ t hk1
              hmu hupd
          · simp at hget
        · rename_i e t hupd
          simp only [Option.some.injEq, Prod.mk.injEq] at h
          rw [← h.2]
          rw [get_member] at hget
          split at hget
          · rename_i mm halGet
            simp only [Except.ok.injEq] at hget
            subst hget
            have hmu : mm.uuid = i.owner.uuid := by
              have := alGet_all (fun p => decide (p.2.uuid = p.1))
                ({ s with items := (alInsert s.items i.uuid i).1 } : System).members
                i.owner.uuid mm ((Bool.and_eq_true _ _).mp hk1).1 halGet
              simpa using this
            exact update_member_keys _ i.owner { mm with credits := mm.credits + 100 } _ t hk1
              hmu hupd
          · simp at hget
      · simp only [Option.some.injEq, Prod.mk.injEq] at h
        rw [← h.2]
        exact hk1
  · intro s i hk
    rw [remove_item]
    split <;>
      · rw [keys_ok, Bool.and_eq_true] at hk ⊢
        exact ⟨hk.1, alRemove_all _ s.items i.uuid hk.2⟩
  · intro s i hk
    rw [update_item]
    split
    · rw [keys_ok, Bool.and_eq_true] at hk ⊢
      exact ⟨hk.1, alSet_all _ s.items i.uuid i hk.2 (by simp)⟩
    · exact hk
  · intro s r s2 hk h
    rw [incr_time] at h
    exact incr_loop_keys _ { s with day := s.day + 1 } (Except.ok ()) r s2 hk h

/-- The update value of the C5 witness: same uuid as `m5a`, new credits. -/
def m5c : Member :=
  { name := "a", email := "e5", phone_nr := "p5", credits := 7, day_of_creation := 0, uuid := ⟨1⟩ }

/-- The C5 witness system after the id-preserving update. -/
def sys5c : System := { members := [(⟨1⟩, m5c)], items := [], day := 0 }

/-- Witness for the amended C5 at concrete inputs: a well-keyed system stays
well-keyed under an insert and under an id-preserving update. -/
theorem keys_invariant_preserved_witness :
    keys_ok sys5 = true ∧
      keys_ok (add_member sys5 m5b).2 = true ∧
      update_member sys5 m5a m5c = some (Except.ok (), sys5c) ∧
      keys_ok sys5c = true :=
  ⟨by decide, keys_invariant_preserved.1 sys5 m5b (by decide), rfl,
    keys_invariant_preserved.2.2.1 sys5 m5a m5c (Except.ok ()) sys5c (by decide) rfl rfl⟩

theorem incr_loop_append (l1 l2 : List Item) (s : System) (out : SysResult Unit) :
    incr_loop s out (l1 ++ l2) =
      (incr_loop s out l1).bind (fun p => incr_loop p.2 p.1 l2) := by
  induction l1 generalizing s out with
  | nil => rfl
  | cons i rest ih =>
    show (match settle_item s i with
          | none => none
          | some (res, s2) => incr_loop s2 res (rest ++ l2)) =
      (match settle_item s i with
          | none => none
          | some (res, s2) => incr_loop s2 res rest).bind (fun p => incr_loop p.2 p.1 l2)
    cases hs : settle_item s i with
    | none => rfl
    | some p =>
      obtain ⟨r, t⟩ := p
      exact ih t r

theorem incr_loop_single (i : Item) (s : System) (out : SysResult Unit) :
    incr_loop s out [i] = settle_item s i := by
  show (match settle_item s i with
        | none => none
        | some (res, s2) => incr_loop s2 res []) = settle_item s i
  cases hs : settle_item s i with
  | none => rfl
  | some p =>
    obtain ⟨r, t⟩ := p
    rfl

/-- The absent owner of the C4 counterexample contract. -/
def m4o : Member :=
  { name := "o", email := "e4o", phone_nr := "p4o", credits := 0, day_of_creation := 0, uuid := ⟨1⟩ }

/-- The absent lendee of the C4 counterexample contract. -/
def m4l : Member :=
  { name := "l", email := "e4l", phone_nr := "p4l", credits := 0, day_of_creation := 0, uuid := ⟨2⟩ }

/-- The C4 counterexample contract, active on days 0 to 4. -/
def c4 : Contract :=
  { uuid := ⟨3⟩, owner := m4o, lendee := m4l, start_day := 0, end_day := 5, credits := 100 }

/-- First C4 item: under the active contract whose lendee cannot be debited. -/
def i4a : Item :=
  { uuid := ⟨5⟩, category := Category.Game, name := "a", description := "d", owner := m4o,
    active_contract := some c4, history := [c4], day_of_creation := 0, cost_per_day := 20 }

/-- Second C4 item: no contract, so its settlement reports Ok. -/
def i4b : Item :=
  { uuid := ⟨6⟩, category := Category.Game, name := "b", description := "d", owner := m4o,
    active_contract := none, history := [], day_of_creation := 0, cost_per_day := 20 }

/-- The C4 counterexample system: no members, the two items above. -/
def sys4 : System :=
  { members := [], items := [(⟨5⟩, i4a), (⟨6⟩, i4b)], day := 0 }

/-- Claim C4 is false as stated: debiting the lendee of the first item fails
(its settlement alone reports CannotUpdate), yet the whole `incr_time` call
reports Ok because the result of the last item overwrites the error. -/
theorem incr_time_swallows_error :
    settle_item { members := [], items := [(⟨5⟩, i4a), (⟨6⟩, i4b)], day := 1 } i4a =
      some (Except.error SysError.CannotUpdate,
        { members := [], items := [(⟨5⟩, i4a), (⟨6⟩, i4b)], day := 1 }) ∧
      incr_time sys4 =
        some (Except.ok (), { members := [], items := [(⟨5⟩, i4a), (⟨6⟩, i4b)], day := 1 }) := by
  exact ⟨rfl, rfl⟩

/-- Claim C4 (amended): every item is still visited exactly once per call —
the loop state threads through all items with no short-circuit — but the call
reports the result of the LAST item settlement only: the per-item results of
all earlier items, errors included, are discarded. -/
theorem incr_time_reports_last_item (s : System) (pre : List (Uuid × Item)) (k : Uuid) (i : Item)
    (h : s.items = pre ++ [(k, i)]) :
    incr_time s =
      (incr_loop { s with day := s.day + 1 } (Except.ok ()) (pre.map Prod.snd)).bind
        (fun p => settle_item p.2 i) := by
  rw [incr_time]
  have hitems : ({ s with day := s.day + 1 } : System).items.map Prod.snd =
      pre.map Prod.snd ++ [i] := by
    show s.items.map Prod.snd = pre.map Prod.snd ++ [i]
    rw [h, List.map_append]
    rfl
  rw [hitems, incr_loop_append]
  congr 1
  funext p
  exact incr_loop_single i p.2 p.1

/-- Witness for the amended C4 at the concrete two-item system: the call
result is exactly the settlement result of the final item after threading the
state through the first. -/
theorem incr_time_reports_last_item_witness :
    sys4.items = [(⟨5⟩, i4a)] ++ [(⟨6⟩, i4b)] ∧
      incr_time sys4 =
        (incr_loop { sys4 with day := sys4.day + 1 } (Except.ok ()) [i4a]).bind
          (fun p => settle_item p.2 i4b) :=
  ⟨rfl, incr_time_reports_last_item sys4 [(⟨5⟩, i4a)] ⟨6⟩ i4b rfl⟩

theorem settle_two_active (A B : Member) (i : Item) (c : Contract) (d : Nat)
    (hhist : i.history = [c]) (hcO : c.owner.uuid = A.uuid) (hcL : c.lendee.uuid = B.uuid)
    (hAB : A.uuid ≠ B.uuid) (hcost : 0 ≤ i.cost_per_day)
    (h1 : c.start_day ≤ d) (h2 : d < c.end_day) :
    settle_item { members := [(A.uuid, A), (B.uuid, B)], items := [(i.uuid, i)], day := d } i =
      some (Except.ok (),
        { members := [(A.uuid, { A with credits := A.credits + i.cost_per_day }),
                      (B.uuid, { B with credits := B.credits - i.cost_per_day })],
          items := [(i.uuid, i)], day := d }) := by
  have hc : ¬(i.cost_per_day < 0) := not_lt.mpr hcost
  simp [settle_item, get_active_contract, hhist, contract_is_active_on, h1, h2,
    settle_owner, settle_lendee, get_member, update_member, exists_member, memberEq,
    add_credits, deduce_credits, alGet, alSet, hcO, hcL, hAB, hc]


theorem incr_times_succ (n : Nat) (s : System) :
    incr_times (n + 1) s =
      match incr_time s with
      | none => none
      | some (r, s2) => incr_times n s2 := rfl

theorem incr_two_active (A B : Member) (i : Item) (c : Contract) (d : Nat)
    (hhist : i.history = [c]) (hcO : c.owner.uuid = A.uuid) (hcL : c.lendee.uuid = B.uuid)
    (hAB : A.uuid ≠ B.uuid) (hcost : 0 ≤ i.cost_per_day)
    (h1 : c.start_day ≤ d + 1) (h2 : d + 1 < c.end_day) :
    incr_time { members := [(A.uuid, A), (B.uuid, B)], items := [(i.uuid, i)], day := d } =
      some (Except.ok (),
        { members := [(A.uuid, { A with credits := A.credits + i.cost_per_day }),
                      (B.uuid, { B with credits := B.credits - i.cost_per_day })],
          items := [(i.uuid, i)], day := d + 1 }) := by
  have h0 : incr_time { members := [(A.uuid, A), (B.uuid, B)], items := [(i.uuid, i)], day := d } =
      settle_item { members := [(A.uuid, A), (B.uuid, B)], items := [(i.uuid, i)], day := d + 1 } i := by
    rw [← incr_loop_single i ⟨[(A.uuid, A), (B.uuid, B)], [(i.uuid, i)], d + 1⟩ (Except.ok ())]
    rfl
  rw [h0]
  exact settle_two_active A B i c (d + 1) hhist hcO hcL hAB hcost h1 h2

theorem incr_two_inactive (A B : Member) (i : Item) (c : Contract) (d : Nat)
    (hhist : i.history = [c])
    (hna : contract_is_active_on c (d + 1) = false) :
    incr_time { members := [(A.uuid, A), (B.uuid, B)], items := [(i.uuid, i)], day := d } =
      some (Except.ok (),
        { members := [(A.uuid, A), (B.uuid, B)], items := [(i.uuid, i)], day := d + 1 }) := by
  have h0 : incr_time { members := [(A.uuid, A), (B.uuid, B)], items := [(i.uuid, i)], day := d } =
      settle_item { members := [(A.uuid, A), (B.uuid, B)], items := [(i.uuid, i)], day := d + 1 } i := by
    rw [← incr_loop_single i ⟨[(A.uuid, A), (B.uuid, B)], [(i.uuid, i)], d + 1⟩ (Except.ok ())]
    rfl
  rw [h0]
  simp [settle_item, get_active_contract, hhist, hna]

theorem incr_times_run (i : Item) (c : Contract)
    (hhist : i.history = [c]) (hcost : 0 ≤ i.cost_per_day) :
    ∀ (n d : Nat) (A B : Member), c.owner.uuid = A.uuid → c.lendee.uuid = B.uuid →
      A.uuid ≠ B.uuid → c.start_day ≤ d + 1 → d + n < c.end_day →
      incr_times n { members := [(A.uuid, A), (B.uuid, B)], items := [(i.uuid, i)], day := d } =
        some { members := [(A.uuid, { A with credits := A.credits + (n : Rat) * i.cost_per_day }),
                           (B.uuid, { B with credits := B.credits - (n : Rat) * i.cost_per_day })],
               items := [(i.uuid, i)], day := d + n } := by
  intro n
  induction n with
  | zero =>
    intro d A B hcO hcL hAB h1 h2
    rw [incr_times]
    norm_num
  | succ m ih =>
    intro d A B hcO hcL hAB h1 h2
    rw [incr_times_succ]
    rw [incr_two_active A B i c d hhist hcO hcL hAB hcost h1 (by omega)]
    have ihh := ih (d + 1) { A with credits := A.credits + i.cost_per_day }
      { B with credits := B.credits - i.cost_per_day } hcO hcL hAB (by omega) (by omega)
    simp only at ihh ⊢
    rw [ihh]
    congr 1
    simp only [System.mk.injEq, List.cons.injEq, Prod.mk.injEq, true_and, and_true]
    refine ⟨⟨?_, ?_⟩, by omega⟩
    · simp only [Member.mk.injEq, true_and, and_true]
      push_cast
      ring
    · simp only [Member.mk.injEq, true_and, and_true]
      push_cast
      ring

/-- Claim C1 (amended): for a contract whose active window is
`[d0, d0 + n + 1)` — one day past the n-th settled day, matching how the
repository test encodes a 5-day contract as `from_date(0, 6)` — n calls to
`incr_time` on a system at day d0 holding the owner, the lendee and the item
transfer `cost_per_day` from lendee to owner on every call (owner total
+= n times cost, lendee total -= n times cost), and one further call (day
d0 + n + 1) transfers nothing.  The counterexample shows the window
`[d0, d0 + n)` stated by the claim settles only n - 1 of the n calls, since
settlement checks the post-increment day. -/
theorem incr_time_settlement (d0 n : Nat) (A B : Member) (i : Item) (c : Contract)
    (hhist : i.history = [c]) (hcost : 0 ≤ i.cost_per_day)
    (hcO : c.owner.uuid = A.uuid) (hcL : c.lendee.uuid = B.uuid) (hAB : A.uuid ≠ B.uuid)
    (hs : c.start_day = d0) (he : c.end_day = d0 + n + 1) :
    incr_times n { members := [(A.uuid, A), (B.uuid, B)], items := [(i.uuid, i)], day := d0 } =
      some { members := [(A.uuid, { A with credits := A.credits + (n : Rat) * i.cost_per_day }),
                         (B.uuid, { B with credits := B.credits - (n : Rat) * i.cost_per_day })],
             items := [(i.uuid, i)], day := d0 + n } ∧
      incr_time { members := [(A.uuid, { A with credits := A.credits + (n : Rat) * i.cost_per_day }),
                              (B.uuid, { B with credits := B.credits - (n : Rat) * i.cost_per_day })],
                  items := [(i.uuid, i)], day := d0 + n } =
        some (Except.ok (),
          { members := [(A.uuid, { A with credits := A.credits + (n : Rat) * i.cost_per_day }),
                        (B.uuid, { B with credits := B.credits - (n : Rat) * i.cost_per_day })],
            items := [(i.uuid, i)], day := d0 + n + 1 }) := by
  constructor
  · exact incr_times_run i c hhist hcost n d0 A B hcO hcL hAB (by omega) (by omega)
  · exact incr_two_inactive { A with credits := A.credits + (n : Rat) * i.cost_per_day }
      { B with credits := B.credits - (n : Rat) * i.cost_per_day } i c (d0 + n) hhist
      (by simp [contract_is_active_on, he])

/-- Member A of the section-8 scenario after listing the item (100 credits). -/
def mC1A : Member :=
  { name := "A", email := "eA", phone_nr := "pA", credits := 100, day_of_creation := 0, uuid := ⟨1⟩ }
/-- Member B of the section-8 scenario, 0 credits. -/
def mC1B : Member :=
  { name := "B", email := "eB", phone_nr := "pB", credits := 0, day_of_creation := 0, uuid := ⟨2⟩ }
/-- The 5-day contract of the scenario, encoded with end day 6 exactly as the
repository test test_advance_time does with from_date(0, 6). -/
def cC1 : Contract :=
  { uuid := ⟨3⟩, owner := mC1A, lendee := mC1B, start_day := 0, end_day := 6, credits := 100 }
/-- The listed item of the scenario, 20 credits per day. -/
def iC1 : Item :=
  { uuid := ⟨4⟩, category := Category.Game, name := "g", description := "d", owner := mC1A,
    active_contract := some cC1, history := [cC1], day_of_creation := 0, cost_per_day := 20 }

/-- Witness for the amended C1 at the section-8 scenario: advancing time 5
times yields A = 200 and B = -100. -/
theorem incr_time_settlement_witness :
    incr_times 5 { members := [(mC1A.uuid, mC1A), (mC1B.uuid, mC1B)],
                   items := [(iC1.uuid, iC1)], day := 0 } =
      some { members :=
               [(mC1A.uuid, { mC1A with credits := mC1A.credits + ((5 : Nat) : Rat) * iC1.cost_per_day }),
                (mC1B.uuid, { mC1B with credits := mC1B.credits - ((5 : Nat) : Rat) * iC1.cost_per_day })],
             items := [(iC1.uuid, iC1)], day := 0 + 5 } ∧
      mC1A.credits + ((5 : Nat) : Rat) * iC1.cost_per_day = 200 ∧
      mC1B.credits - ((5 : Nat) : Rat) * iC1.cost_per_day = -100 := by
  have ht := incr_time_settlement 0 5 mC1A mC1B iC1 cC1 rfl (by norm_num [iC1]) rfl rfl
    (by decide) rfl rfl
  exact ⟨ht.1, by norm_num [mC1A, iC1], by norm_num [mC1B, iC1]⟩

/-- Member A of the C1 counterexample (100 credits after listing). -/
def mXA : Member :=
  { name := "A", email := "xA", phone_nr := "qA", credits := 100, day_of_creation := 0, uuid := ⟨1⟩ }
/-- Member B of the C1 counterexample, 0 credits. -/
def mXB : Member :=
  { name := "B", email := "xB", phone_nr := "qB", credits := 0, day_of_creation := 0, uuid := ⟨2⟩ }
/-- The C1 counterexample contract with the window `[0, 5)` stated by the
claim for a 5-day contract starting day 0. -/
def cX : Contract :=
  { uuid := ⟨3⟩, owner := mXA, lendee := mXB, start_day := 0, end_day := 5, credits := 100 }
/-- The C1 counterexample item at 20 credits per day. -/
def iX : Item :=
  { uuid := ⟨4⟩, category := Category.Game, name := "g", description := "d", owner := mXA,
    active_contract := some cX, history := [cX], day_of_creation := 0, cost_per_day := 20 }
/-- The C1 counterexample system at day 0. -/
def sysX : System :=
  { members := [(⟨1⟩, mXA), (⟨2⟩, mXB)], items := [(⟨4⟩, iX)], day := 0 }

/-- Claim C1 is false as stated: with the claimed window `[0, 5)` (n = 5,
d0 = 0), five `incr_time` calls settle only days 1 to 4, leaving A at 180 and
B at -80 instead of the claimed 200 and -100: `incr_time` checks the
post-increment day, so the window start day itself is never settled. -/
theorem incr_time_offbyone_counterexample :
    cX.start_day = 0 ∧ cX.end_day = 5 ∧ sysX.day = 0 ∧ iX.cost_per_day = 20 ∧
      incr_times 5 sysX =
        some { members := [(⟨1⟩, { mXA with credits := 180 }), (⟨2⟩, { mXB with credits := -80 })],
               items := [(⟨4⟩, iX)], day := 5 } ∧
      (180 : Rat) ≠ 200 ∧ (-80 : Rat) ≠ -100 := by
  refine ⟨rfl, rfl, rfl, rfl, ?_, by norm_num, by norm_num⟩
  norm_num [incr_times, incr_time, incr_loop, settle_item, settle_owner, settle_lendee,
    get_active_contract, contract_is_active_on, get_member, update_member, exists_member,
    memberEq, add_credits, deduce_credits, alGet, alSet, sysX, iX, cX, mXA, mXB]
